import Mathlib

/-!
# A shallow embedding of the tinyJson parser (src/tinyJson.h, src/tinyJson.cpp)

The embedding models the recursive-descent JSON parser of the repository:

* the input buffer is a `List Char`; the cursor is the remaining suffix of the
  buffer, so the empty list plays the role of the terminating NUL byte
  (`Parse` copies `len` bytes of the caller's text and appends a NUL, so the
  buffer never contains an interior NUL);
* a `char *` that may be `nullptr` is modelled by the result constructors of
  `PRes` / `RunRes` (`ok` carries the advanced cursor, `fail` stands for a
  returned `nullptr`);
* the per-variant slab pools (`MemPoolT`) are modelled by their live-allocation
  counters (`CurrentAllocs`) only: `Alloc` increments and `Free` decrements the
  counter of the pool of the node's variant;
* undefined behaviour that the source can reach (the null-pointer dereference
  in `JsonObject::ParseDeep` when its first `ParseElement` fails, and the
  buffer overrun in `JsonString::ParseDeep` when a `\` is the last byte before
  the terminator) is modelled by the distinguished outcome `ub`;
* the mutually recursive parse routines are given a fuel argument so that the
  recursion is structural; `noFuel` marks fuel exhaustion, an artifact of the
  embedding that `documentParse` is given enough fuel never to reach on the
  inputs considered in the theorems below.

Floats are not modelled (main embedding): `JsonNumber` stores the consumed
lexeme, from which `strtod` would derive `_valueFloat` / `_valueInt`.
-/

/-- The error taxonomy, `enum class JsonError` in src/tinyJson.h. -/
inductive JsonError where
  | JSON_NO_ERROR
  | JSON_ERROR_FILE_NOT_FOUND
  | JSON_ERROR_FILE_COULD_NOT_BE_OPENED
  | JSON_ERROR_FILE_READ_ERROR
  | JSON_ERROR_MEM_POOL_ERROR
  | JSON_ERROR_OBJECT_MISMATCH
  | JSON_ERROR_PARSING_OBJECT
  | JSON_ERROR_ARRAY_MISMATCH
  | JSON_ERROR_PARSING_ELEMENT
  | JSON_ERROR_PARSING_NUMBER
  | JSON_ERROR_PARSING_STRING
  | JSON_ERROR_PARSING_RESERVED
  | JSON_ERROR_PARSING
  | JSON_ERROR_EMPTY_DOCUMENT
deriving DecidableEq, Repr

/-- `isspace` of the C locale on an unsigned char, as used by
`JsonUtil::SkipWhiteSpace`: space, tab, newline, vertical tab, form feed,
carriage return. -/
def isSpaceByte (c : Char) : Bool :=
  c = ' ' || c = '\t' || c = '\n' || c = '\x0b' || c = '\x0c' || c = '\r'

/-- `JsonUtil::IsUTF8Continuation`: `p & 0x80` (nonzero iff the high bit of the
byte is set). -/
def isUTF8Continuation (c : Char) : Bool :=
  Nat.land c.toNat 128 ≠ 0

/-- `JsonUtil::SkipWhiteSpace`: advance while the byte is not a UTF-8
high-bit byte and is `isspace`.  The NUL terminator (here: the end of the
list) is not a space, so the scan always stops at it. -/
def skipWhiteSpace : List Char → List Char
  | [] => []
  | c :: rest =>
    if !isUTF8Continuation c && isSpaceByte c then skipWhiteSpace rest
    else c :: rest

/-- The Document's error slot: `_errorID`, `_errorStr1`, `_errorStr2`
(src/tinyJson.h).  The context strings are non-owning `const char *`
references, modelled as optional strings (`none` = null). -/
structure ErrState where
  errorID : JsonError
  errorStr1 : Option (List Char)
  errorStr2 : Option (List Char)
deriving DecidableEq, Repr

/-- `JsonDocument::SetError` (src/tinyJson.cpp:425-432): first error wins;
once `_errorID` is not `JSON_NO_ERROR` the call is a no-op. -/
def setError (st : ErrState) (error : JsonError)
    (str1 str2 : Option (List Char)) : ErrState :=
  if st.errorID = JsonError.JSON_NO_ERROR then
    { errorID := error, errorStr1 := str1, errorStr2 := str2 }
  else st

/-- The live-allocation counters (`MemPoolT::CurrentAllocs`) of the six
per-variant pools owned by the Document (src/tinyJson.h:650-655). -/
structure Pools where
  objectAllocs : Int
  arrayAllocs : Int
  elementAllocs : Int
  numberAllocs : Int
  stringAllocs : Int
  reservedAllocs : Int
deriving DecidableEq, Repr

def zeroPools : Pools := ⟨0, 0, 0, 0, 0, 0⟩

def poolsAdd (a b : Pools) : Pools :=
  ⟨a.objectAllocs + b.objectAllocs, a.arrayAllocs + b.arrayAllocs,
   a.elementAllocs + b.elementAllocs, a.numberAllocs + b.numberAllocs,
   a.stringAllocs + b.stringAllocs, a.reservedAllocs + b.reservedAllocs⟩

def poolsSub (a b : Pools) : Pools :=
  ⟨a.objectAllocs - b.objectAllocs, a.arrayAllocs - b.arrayAllocs,
   a.elementAllocs - b.elementAllocs, a.numberAllocs - b.numberAllocs,
   a.stringAllocs - b.stringAllocs, a.reservedAllocs - b.reservedAllocs⟩

/-- The mutable parsing state of the Document: the error slot and the pool
counters. -/
structure DocState where
  err : ErrState
  pools : Pools
deriving DecidableEq, Repr

def initState : DocState := ⟨⟨JsonError.JSON_NO_ERROR, none, none⟩, zeroPools⟩

/-- `SetError` lifted to the document state; every call site in the parser
passes null context strings (`SetError(err, 0, 0)`). -/
def setErrD (st : DocState) (e : JsonError) : DocState :=
  { st with err := setError st.err e none none }

/-- `JsonReserved::Type` (src/tinyJson.h:511-516). -/
inductive RType where
  | RESERVED
  | RESERVED_NULL
  | RESERVED_TRUE
  | RESERVED_FALSE
deriving DecidableEq, Repr

/-- The node tree.  Each constructor is one `JsonNode` variant; the child
list is the intrusive first-child/next-sibling chain in insertion order.
`string` stores the recorded slice (`StrPair`, escapes kept verbatim);
`number` stores the lexeme consumed by the numeric scan, from which the
float and truncated int views are derived. -/
inductive JNode where
  | object (children : List JNode)
  | array (children : List JNode)
  | element (children : List JNode)
  | string (slice : List Char)
  | number (lexeme : List Char)
  | reserved (t : RType)

mutual

/-- Pool counters attributed to a node and its whole subtree: this is what
`JsonNode::DeleteNode` returns to the pools (the destructor recursively
deletes children, then the node is freed to the pool it was allocated
from). -/
def nodeCounts : JNode → Pools
  | .object ch => poolsAdd ⟨1, 0, 0, 0, 0, 0⟩ (listCounts ch)
  | .array ch => poolsAdd ⟨0, 1, 0, 0, 0, 0⟩ (listCounts ch)
  | .element ch => poolsAdd ⟨0, 0, 1, 0, 0, 0⟩ (listCounts ch)
  | .number _ => ⟨0, 0, 0, 1, 0, 0⟩
  | .string _ => ⟨0, 0, 0, 0, 1, 0⟩
  | .reserved _ => ⟨0, 0, 0, 0, 0, 1⟩

def listCounts : List JNode → Pools
  | [] => zeroPools
  | n :: rest => poolsAdd (nodeCounts n) (listCounts rest)

end

/-- `MemPoolT::Alloc` bumps `_currentAllocs`; one helper per variant pool. -/
def allocObject (st : DocState) : DocState :=
  { st with pools := { st.pools with objectAllocs := st.pools.objectAllocs + 1 } }

def allocArray (st : DocState) : DocState :=
  { st with pools := { st.pools with arrayAllocs := st.pools.arrayAllocs + 1 } }

def allocElement (st : DocState) : DocState :=
  { st with pools := { st.pools with elementAllocs := st.pools.elementAllocs + 1 } }

def allocNumber (st : DocState) : DocState :=
  { st with pools := { st.pools with numberAllocs := st.pools.numberAllocs + 1 } }

def allocString (st : DocState) : DocState :=
  { st with pools := { st.pools with stringAllocs := st.pools.stringAllocs + 1 } }

def allocReserved (st : DocState) : DocState :=
  { st with pools := { st.pools with reservedAllocs := st.pools.reservedAllocs + 1 } }

/-- `JsonNode::DeleteNode`: the node and, transitively, all its linked
children are returned to their pools. -/
def freeNode (st : DocState) (n : JNode) : DocState :=
  { st with pools := poolsSub st.pools (nodeCounts n) }

/-- The node variant chosen by `JsonDocument::Identify`'s dispatch. -/
inductive VTag where
  | vReserved
  | vString
  | vObject
  | vArray
  | vNumber
deriving DecidableEq, Repr

/-- `JsonDocument::Identify` (src/tinyJson.cpp:434-486): skip whitespace; at
end of input return with no node; otherwise dispatch on the byte, allocating
the matching variant from its pool.  The cursor is advanced past `"`, `{`
and `[` but not past `n`/`t`/`f`, `-` or a digit.  No error is ever
recorded here. -/
def identify (st : DocState) (json : List Char) :
    DocState × List Char × Option VTag :=
  match skipWhiteSpace json with
  | [] => (st, [], none)
  | c :: rest =>
    if c = 'n' || c = 't' || c = 'f' then
      (allocReserved st, c :: rest, some VTag.vReserved)
    else if c = '\"' then (allocString st, rest, some VTag.vString)
    else if c = '{' then (allocObject st, rest, some VTag.vObject)
    else if c = '[' then (allocArray st, rest, some VTag.vArray)
    else if c = '-' || ('0' ≤ c && c ≤ '9') then
      (allocNumber st, c :: rest, some VTag.vNumber)
    else (st, c :: rest, none)

/-- Result of one variant's `ParseDeep`: `ok` is a non-null returned cursor
together with the completed node; `fail` is a returned `nullptr`, carrying
the partially built node (with the children it had linked so far) that the
caller's `DeleteNode` must return to the pools; `ub` is reachable undefined
behaviour; `noFuel` is fuel exhaustion of the embedding. -/
inductive PRes where
  | ok (node : JNode) (rest : List Char)
  | fail (partialNode : JNode)
  | noFuel
  | ub

/-- Result of the shared run-of-values loop `JsonNode::ParseDeep`: `ok` is
the non-null cursor it returns, `fail` a returned `nullptr` (a child's parse
failed; the child was deleted, the children linked before it remain). -/
inductive RunRes where
  | ok (rest : List Char)
  | fail
  | noFuel
  | ub
deriving DecidableEq, Repr

/-- Result of `JsonObject::ParseElement`: `ok` is the advanced cursor with
the completed element (linked by the caller); `fail` a returned `nullptr`
(the element and its children were already freed). -/
inductive ERes where
  | ok (e : JNode) (rest : List Char)
  | fail
  | noFuel
  | ub

/-- `JsonReserved::ParseDeep` (src/tinyJson.cpp:118-135): exact literal
match via `strncmp` against `null` / `true` / `false`; a mismatch records
`JSON_ERROR_PARSING_RESERVED` and returns null. -/
def jsonReservedParseDeep (st : DocState) (json : List Char) : DocState × PRes :=
  if List.isPrefixOf ['n', 'u', 'l', 'l'] json then
    (st, PRes.ok (JNode.reserved RType.RESERVED_NULL) (json.drop 4))
  else if List.isPrefixOf ['t', 'r', 'u', 'e'] json then
    (st, PRes.ok (JNode.reserved RType.RESERVED_TRUE) (json.drop 4))
  else if List.isPrefixOf ['f', 'a', 'l', 's', 'e'] json then
    (st, PRes.ok (JNode.reserved RType.RESERVED_FALSE) (json.drop 5))
  else
    (setErrD st JsonError.JSON_ERROR_PARSING_RESERVED,
     PRes.fail (JNode.reserved RType.RESERVED))

/-- Count of leading decimal digits. -/
def digitSpan : List Char → Nat
  | [] => 0
  | c :: rest => if '0' ≤ c && c ≤ '9' then digitSpan rest + 1 else 0

/-- Length of the prefix consumed by the platform's `strtod` on a decimal
subject sequence: optional sign, digits with an optional decimal point,
optional exponent part (consumed only when it has at least one digit).
If the mantissa has no digit at all, no conversion is performed and zero
characters are consumed (`endptr == nptr`).  The caller has already skipped
whitespace.  Hexadecimal floats and the `inf`/`nan` forms accepted by C99
`strtod` are left out of the model: the dispatch in `Identify` reaches the
numeric parse only on `-` or a digit, and no theorem below depends on those
forms. -/
def strtodLen (l : List Char) : Nat :=
  let signLen : Nat := match l with
    | c :: _ => if c = '+' || c = '-' then 1 else 0
    | [] => 0
  let l1 := l.drop signLen
  let d1 := digitSpan l1
  let l2 := l1.drop d1
  let fracLen : Nat := match l2 with
    | c :: rest => if c = '.' then 1 + digitSpan rest else 0
    | [] => 0
  let d2 := fracLen - 1
  let l3 := l2.drop fracLen
  let expLen : Nat := match l3 with
    | c :: rest =>
      if c = 'e' || c = 'E' then
        let esign : Nat := match rest with
          | d :: _ => if d = '+' || d = '-' then 1 else 0
          | [] => 0
        let ed := digitSpan (rest.drop esign)
        if ed = 0 then 0 else 1 + esign + ed
      else 0
    | [] => 0
  if d1 + (if fracLen = 0 then 0 else d2) = 0 then 0
  else signLen + d1 + fracLen + expLen

/-- `JsonNumber::ParseDeep` (src/tinyJson.cpp:152-175): skip whitespace,
run the float scan; if it consumed no characters record
`JSON_ERROR_OBJECT_MISMATCH` and return null, else store the value and
return the cursor past the consumed text. -/
def jsonNumberParseDeep (st : DocState) (json : List Char) : DocState × PRes :=
  let json1 := skipWhiteSpace json
  let n := strtodLen json1
  if n ≠ 0 then (st, PRes.ok (JNode.number (json1.take n)) (json1.drop n))
  else (setErrD st JsonError.JSON_ERROR_OBJECT_MISMATCH,
        PRes.fail (JNode.number []))

/-- Outcome of the scan loop of `JsonString::ParseDeep`
(src/tinyJson.cpp:194-198): `found` stops at an unescaped `"` (slice and
cursor past the quote), `unterminated` stops at the terminating NUL (end of
list), `pastEnd` is the case where a `\` is the last byte before the
terminator: `ptr` is incremented twice and steps past the NUL, after which
the loop reads out of bounds. -/
inductive ScanRes where
  | found (slice rest : List Char)
  | unterminated
  | pastEnd
deriving DecidableEq, Repr

/-- The scan loop of `JsonString::ParseDeep`: advance until an unescaped
`"` or the terminator, skipping two bytes at each `\`. -/
def strScan : List Char → List Char → ScanRes
  | _, [] => ScanRes.unterminated
  | acc, c :: rest =>
    if c = '\"' then ScanRes.found acc rest
    else if c = '\\' then
      match rest with
      | [] => ScanRes.pastEnd
      | d :: rest2 => strScan (acc ++ [c, d]) rest2
    else strScan (acc ++ [c]) rest

/-- `JsonString::ParseDeep` (src/tinyJson.cpp:190-207): on an unescaped
closing quote, overwrite it with NUL, record the slice and return the
cursor past it; at the terminator record `JSON_ERROR_PARSING_STRING` and
return null; a trailing backlash makes the scan leave the buffer (`ub`). -/
def jsonStringParseDeep (st : DocState) (json : List Char) : DocState × PRes :=
  match strScan [] json with
  | ScanRes.found slice rest => (st, PRes.ok (JNode.string slice) rest)
  | ScanRes.unterminated =>
    (setErrD st JsonError.JSON_ERROR_PARSING_STRING, PRes.fail (JNode.string []))
  | ScanRes.pastEnd => (st, PRes.ub)

mutual

/-- `JsonNode::ParseDeep` (src/tinyJson.cpp:82-108), the shared
run-of-values loop: while the cursor is not at the terminator, identify the
next value; if no variant is identified stop (not an error); otherwise run
that variant's parse.  A successful child is linked at the end of the child
list and the loop continues after skipping whitespace; a failed child is
deleted (returned to its pool with its subtree), `JSON_ERROR_PARSING` is
recorded, and null is returned.  Children linked before the failure stay
linked. -/
def jsonNodeParseDeep : Nat → DocState → List Char → DocState × List JNode × RunRes
  | 0, st, _ => (st, [], RunRes.noFuel)
  | Nat.succ f, st, json =>
    match json with
    | [] => (st, [], RunRes.ok [])
    | c0 :: rest0 =>
      match identify st (c0 :: rest0) with
      | (st1, json1, none) => (st1, [], RunRes.ok json1)
      | (st1, json1, some t) =>
        match parseValue f t st1 json1 with
        | (st2, PRes.ok node rest) =>
          match jsonNodeParseDeep f st2 (skipWhiteSpace rest) with
          | (st3, kids, r) => (st3, node :: kids, r)
        | (st2, PRes.fail pnode) =>
          (setErrD (freeNode st2 pnode) JsonError.JSON_ERROR_PARSING, [],
           RunRes.fail)
        | (st2, PRes.noFuel) => (st2, [], RunRes.noFuel)
        | (st2, PRes.ub) => (st2, [], RunRes.ub)
  termination_by structural f _ _ => f

/-- Virtual dispatch `node->ParseDeep(json)` on the variant the `Identify`
step allocated. -/
def parseValue : Nat → VTag → DocState → List Char → DocState × PRes
  | 0, _, st, _ => (st, PRes.noFuel)
  | Nat.succ f, t, st, json =>
    match t with
    | VTag.vReserved => jsonReservedParseDeep st json
    | VTag.vString => jsonStringParseDeep st json
    | VTag.vNumber => jsonNumberParseDeep st json
    | VTag.vObject => jsonObjectParseDeep f st json
    | VTag.vArray => jsonArrayParseDeep f st json
  termination_by structural f _ _ _ => f

/-- `JsonElement::ParseDeep` (src/tinyJson.cpp:224-246): require a `"` at
the cursor; parse the key phase with the shared run loop; require `:`;
parse the value phase with the shared run loop; any deviation records
`JSON_ERROR_PARSING_ELEMENT` and returns null.  The node keeps every child
the run loops linked. -/
def jsonElementParseDeep : Nat → DocState → List Char → DocState × PRes
  | 0, st, _ => (st, PRes.noFuel)
  | Nat.succ f, st, json =>
    match json with
    | '\"' :: tl =>
      match jsonNodeParseDeep f st ('\"' :: tl) with
      | (st1, kids1, RunRes.ok json1) =>
        (match skipWhiteSpace json1 with
         | ':' :: json2 =>
           (match jsonNodeParseDeep f st1 json2 with
            | (st2, kids2, RunRes.ok json3) =>
              (st2, PRes.ok (JNode.element (kids1 ++ kids2)) (skipWhiteSpace json3))
            | (st2, kids2, RunRes.fail) =>
              (setErrD st2 JsonError.JSON_ERROR_PARSING_ELEMENT,
               PRes.fail (JNode.element (kids1 ++ kids2)))
            | (st2, _, RunRes.noFuel) => (st2, PRes.noFuel)
            | (st2, _, RunRes.ub) => (st2, PRes.ub))
         | _ =>
           (setErrD st1 JsonError.JSON_ERROR_PARSING_ELEMENT,
            PRes.fail (JNode.element kids1)))
      | (st1, kids1, RunRes.fail) =>
        (setErrD st1 JsonError.JSON_ERROR_PARSING_ELEMENT,
         PRes.fail (JNode.element kids1))
      | (st1, _, RunRes.noFuel) => (st1, PRes.noFuel)
      | (st1, _, RunRes.ub) => (st1, PRes.ub)
    | _ =>
      (setErrD st JsonError.JSON_ERROR_PARSING_ELEMENT,
       PRes.fail (JNode.element []))
  termination_by structural f _ _ => f

/-- `JsonObject::ParseElement` (src/tinyJson.cpp:304-318): allocate an
element (`CreatElement`), parse it, skip whitespace; on failure delete it,
record `JSON_ERROR_PARSING_ELEMENT` and return null, else hand it to the
caller to link. -/
def jsonObjectParseElement : Nat → DocState → List Char → DocState × ERes
  | 0, st, _ => (st, ERes.noFuel)
  | Nat.succ f, st, json =>
    let st1 := allocElement st
    match jsonElementParseDeep f st1 json with
    | (st2, PRes.ok node rest) => (st2, ERes.ok node (skipWhiteSpace rest))
    | (st2, PRes.fail pnode) =>
      (setErrD (freeNode st2 pnode) JsonError.JSON_ERROR_PARSING_ELEMENT,
       ERes.fail)
    | (st2, PRes.noFuel) => (st2, ERes.noFuel)
    | (st2, PRes.ub) => (st2, ERes.ub)
  termination_by structural f _ _ => f

/-- `JsonObject::ParseDeep` (src/tinyJson.cpp:271-302): skip whitespace; at
the terminator record `JSON_ERROR_OBJECT_MISMATCH`; `}` closes an empty
object; otherwise parse the first element — the source dereferences the
returned cursor without a null check (`while (*json == ',')`), so a failed
first element is a null-pointer dereference, modelled by `ub` — then loop
on `,`. -/
def jsonObjectParseDeep : Nat → DocState → List Char → DocState × PRes
  | 0, st, _ => (st, PRes.noFuel)
  | Nat.succ f, st, json =>
    match skipWhiteSpace json with
    | [] => (setErrD st JsonError.JSON_ERROR_OBJECT_MISMATCH,
             PRes.fail (JNode.object []))
    | c :: rest =>
      if c = '}' then (st, PRes.ok (JNode.object []) rest)
      else
        match jsonObjectParseElement f st (c :: rest) with
        | (st1, ERes.ok e json1) => jsonObjectLoop f st1 [e] json1
        | (st1, ERes.fail) => (st1, PRes.ub)
        | (st1, ERes.noFuel) => (st1, PRes.noFuel)
        | (st1, ERes.ub) => (st1, PRes.ub)
  termination_by structural f _ _ => f

/-- The `while (*json == ',')` loop and closing-brace epilogue of
`JsonObject::ParseDeep` (src/tinyJson.cpp:286-301): each `,` is followed by
one `ParseElement` (this time null-checked; failure records
`JSON_ERROR_OBJECT_MISMATCH`); the loop must end at `}`, anything else
records `JSON_ERROR_OBJECT_MISMATCH`. -/
def jsonObjectLoop : Nat → DocState → List JNode → List Char → DocState × PRes
  | 0, st, _, _ => (st, PRes.noFuel)
  | Nat.succ f, st, acc, json =>
    match json with
    | ',' :: json1 =>
      match jsonObjectParseElement f st json1 with
      | (st1, ERes.ok e json2) => jsonObjectLoop f st1 (acc ++ [e]) json2
      | (st1, ERes.fail) =>
        (setErrD st1 JsonError.JSON_ERROR_OBJECT_MISMATCH,
         PRes.fail (JNode.object acc))
      | (st1, ERes.noFuel) => (st1, PRes.noFuel)
      | (st1, ERes.ub) => (st1, PRes.ub)
    | '}' :: rest => (st, PRes.ok (JNode.object acc) rest)
    | _ => (setErrD st JsonError.JSON_ERROR_OBJECT_MISMATCH,
            PRes.fail (JNode.object acc))
  termination_by structural f _ _ _ => f

/-- `JsonArray::ParseDeep` (src/tinyJson.cpp:341-373): skip whitespace; at
the terminator record `JSON_ERROR_ARRAY_MISMATCH`; `]` closes an empty
array; otherwise one shared run of values (which consumes every
whitespace-separated value it can identify), then loop on `,`.  A failed
first run returns null with no additional error. -/
def jsonArrayParseDeep : Nat → DocState → List Char → DocState × PRes
  | 0, st, _ => (st, PRes.noFuel)
  | Nat.succ f, st, json =>
    match skipWhiteSpace json with
    | [] => (setErrD st JsonError.JSON_ERROR_ARRAY_MISMATCH,
             PRes.fail (JNode.array []))
    | c :: rest =>
      if c = ']' then (st, PRes.ok (JNode.array []) rest)
      else
        match jsonNodeParseDeep f st (c :: rest) with
        | (st1, kids, RunRes.ok json1) =>
          jsonArrayLoop f st1 kids (skipWhiteSpace json1)
        | (st1, kids, RunRes.fail) => (st1, PRes.fail (JNode.array kids))
        | (st1, _, RunRes.noFuel) => (st1, PRes.noFuel)
        | (st1, _, RunRes.ub) => (st1, PRes.ub)
  termination_by structural f _ _ => f

/-- The `while (*json == ',')` loop and closing-bracket epilogue of
`JsonArray::ParseDeep` (src/tinyJson.cpp:358-372): each `,` is followed by
another run of values; a failed run or a run ending at the terminator
records `JSON_ERROR_ARRAY_MISMATCH`; the loop must end at `]`. -/
def jsonArrayLoop : Nat → DocState → List JNode → List Char → DocState × PRes
  | 0, st, _, _ => (st, PRes.noFuel)
  | Nat.succ f, st, acc, json =>
    match json with
    | ',' :: json1 =>
      match jsonNodeParseDeep f st json1 with
      | (st1, kids, RunRes.ok json2) =>
        (match skipWhiteSpace json2 with
         | [] => (setErrD st1 JsonError.JSON_ERROR_ARRAY_MISMATCH,
                  PRes.fail (JNode.array (acc ++ kids)))
         | j2 => jsonArrayLoop f st1 (acc ++ kids) j2)
      | (st1, kids, RunRes.fail) =>
        (setErrD st1 JsonError.JSON_ERROR_ARRAY_MISMATCH,
         PRes.fail (JNode.array (acc ++ kids)))
      | (st1, _, RunRes.noFuel) => (st1, PRes.noFuel)
      | (st1, _, RunRes.ub) => (st1, PRes.ub)
    | ']' :: rest => (st, PRes.ok (JNode.array acc) rest)
    | _ => (setErrD st JsonError.JSON_ERROR_ARRAY_MISMATCH,
            PRes.fail (JNode.array acc))
  termination_by structural f _ _ _ => f

end

/-- Outcome of `JsonDocument::Parse`: the returned `_errorID`, the
top-level children left linked on the Document, and the pools' live
counters; or the reachable undefined behaviour / fuel artifact. -/
inductive DocRes where
  | ret (errorID : JsonError) (children : List JNode) (pools : Pools)
  | noFuel
  | ub

/-- Fuel budget for `documentParse` — generous enough that no input of the
stated theorems exhausts it. -/
def documentFuel (s : List Char) : Nat := 8 * s.length + 32

/-- `JsonDocument::Parse` (src/tinyJson.cpp:495-519): reset the tree and
the error state; an empty or whitespace-only text records
`JSON_ERROR_EMPTY_DOCUMENT`; otherwise run the shared value loop on the
buffer and return `_errorID` (the loop's own success or failure is
discarded; children linked before a failure stay in the tree). -/
def documentParse (s : List Char) : DocRes :=
  match s with
  | [] => DocRes.ret JsonError.JSON_ERROR_EMPTY_DOCUMENT [] zeroPools
  | _ =>
    match skipWhiteSpace s with
    | [] => DocRes.ret JsonError.JSON_ERROR_EMPTY_DOCUMENT [] zeroPools
    | _ =>
      match jsonNodeParseDeep (documentFuel s) initState s with
      | (st, kids, RunRes.ok _) => DocRes.ret st.err.errorID kids st.pools
      | (st, kids, RunRes.fail) => DocRes.ret st.err.errorID kids st.pools
      | (_, _, RunRes.noFuel) => DocRes.noFuel
      | (_, _, RunRes.ub) => DocRes.ub

/-- `JsonPrinter::PrintSpace` (src/tinyJson.cpp:610-615): four literal
spaces per indentation level. -/
def printSpace : Nat → List Char
  | 0 => []
  | Nat.succ n => printSpace n ++ "    ".data

/-- `JsonPrinter::PrintPrevSymbol` (src/tinyJson.cpp:617-632): when the node
has a parent and a previous sibling, emit `" : "` if the parent is an
Element (and return immediately), else `",\n"`; afterwards indent unless
the node itself is an Element.  In every printing context of this embedding
the parent exists (the Document or a container). -/
def printPrevSymbol (parentIsElem hasPrev selfIsElem : Bool) (depth : Nat) :
    List Char :=
  if hasPrev then
    if parentIsElem then " : ".data
    else ",\n".data ++ (if selfIsElem then [] else printSpace depth)
  else if selfIsElem then [] else printSpace depth

mutual

/-- The `JsonPrinter` visitor on one node (src/tinyJson.cpp:531-608):
`{`/`[` with a newline and one more indent level on entering an Object or
Array and the matching newline-indent-brace on exit; an Element prints only
its separator prologue and lets its children follow at the same depth; a
String prints its slice wrapped in quotes with no further escaping; a
Reserved node prints `null` / `true` / `flase` (the misspelling is what the
source emits for `RESERVED_FALSE`); a Number prints its value — the model
prints the stored lexeme, abstracting the `ostringstream` float formatting,
which no theorem below depends on. -/
def printNode : JNode → Nat → Bool → Bool → List Char
  | JNode.object ch, depth, parentIsElem, hasPrev =>
    printPrevSymbol parentIsElem hasPrev false depth ++ "\x7b\n".data ++
      printList ch (depth + 1) false false ++ "\n".data ++
      printSpace depth ++ "\x7d".data
  | JNode.array ch, depth, parentIsElem, hasPrev =>
    printPrevSymbol parentIsElem hasPrev false depth ++ "[\n".data ++
      printList ch (depth + 1) false false ++ "\n".data ++
      printSpace depth ++ "]".data
  | JNode.element ch, depth, parentIsElem, hasPrev =>
    printPrevSymbol parentIsElem hasPrev true depth ++
      printList ch depth true false
  | JNode.number lexeme, depth, parentIsElem, hasPrev =>
    printPrevSymbol parentIsElem hasPrev false depth ++ lexeme
  | JNode.string s, depth, parentIsElem, hasPrev =>
    printPrevSymbol parentIsElem hasPrev false depth ++
      '\"' :: (s ++ ['\"'])
  | JNode.reserved t, depth, parentIsElem, hasPrev =>
    printPrevSymbol parentIsElem hasPrev false depth ++
      (match t with
       | RType.RESERVED_NULL => "null".data
       | RType.RESERVED_TRUE => "true".data
       | RType.RESERVED_FALSE => "flase".data
       | RType.RESERVED => [])

/-- `Accept` over a child chain: the first child is visited with no
previous sibling, every later one with `hasPrev`.  All the printer's visit
methods return `true`, so the traversal never stops early. -/
def printList : List JNode → Nat → Bool → Bool → List Char
  | [], _, _, _ => []
  | n :: rest, depth, parentIsElem, hasPrev =>
    printNode n depth parentIsElem hasPrev ++
      printList rest depth parentIsElem true

end

/-- `JsonDocument::Accept` with a fresh `JsonPrinter`
(src/tinyJson.cpp:521-529): visit the Document's children in order at
depth 0; the children's parent is the Document, which is not an Element. -/
def printDocument (children : List JNode) : List Char :=
  printList children 0 false false

/-- Exit point of the scan loop of `JsonString::ParseDeep`, re-expressed
over raw memory: `exitQuote p` means the loop stopped at a `"` at address
`p` (the parse then succeeds, writing NUL at `p` and resuming at `p + 1`),
`exitNul p` means it stopped at a NUL byte at `p` (unterminated-string
error). -/
inductive MemScan where
  | exitQuote (p : Nat)
  | exitNul (p : Nat)
  | noFuel
deriving DecidableEq, Repr

/-- The scan loop of `JsonString::ParseDeep` (src/tinyJson.cpp:194-198)
over a memory `mem` of bytes at every address, starting at address `p`:
`while (*ptr != '"' && *ptr) { if (*ptr++ == '\\') ptr++; }`.  A `\`
advances the pointer by two, whatever the next byte is — including past a
terminating NUL. -/
def strScanMem (mem : Nat → Char) : Nat → Nat → MemScan
  | 0, _ => MemScan.noFuel
  | Nat.succ f, p =>
    if mem p = '\"' then MemScan.exitQuote p
    else if mem p = '\x00' then MemScan.exitNul p
    else strScanMem mem f (if mem p = '\\' then p + 2 else p + 1)

/-- One possible memory for the buffer the Document builds for the input
`"\`: after `Identify` consumes the opening quote, the string scan starts
at a buffer whose content is `\`, NUL — addresses 0 and 1 — followed here
by a stray `"` byte beyond the allocation. -/
def memBeyondQuote : Nat → Char :=
  fun i => List.getD ['\\', '\x00', '\"'] i '\x00'

/-- The same buffer with a different byte beyond the allocation. -/
def memBeyondOther : Nat → Char :=
  fun i => List.getD ['\\', '\x00', 'x'] i '\x00'

/-- The spec-side "identify next value" whitespace primitive, worded as the
specification describes it: drop leading bytes that are ASCII whitespace
and do not have their high bit set. -/
def skipWhiteSpaceSpec (l : List Char) : List Char :=
  l.dropWhile (fun c => isSpaceByte c && !isUTF8Continuation c)

/-- The spec-side "identify next value" dispatch table, worded as the
specification describes it: after skipping whitespace, `n`/`t`/`f` is a
Reserved, `"` a String with the cursor advanced past the quote, `{` an
Object advanced past it, `[` an Array advanced past it, `-` or a digit a
Number, and end of input or any other byte no value. -/
def identifySpec (json : List Char) : List Char × Option VTag :=
  match skipWhiteSpaceSpec json with
  | [] => ([], none)
  | c :: rest =>
    if c = 'n' || c = 't' || c = 'f' then (c :: rest, some VTag.vReserved)
    else if c = '\"' then (rest, some VTag.vString)
    else if c = '{' then (rest, some VTag.vObject)
    else if c = '[' then (rest, some VTag.vArray)
    else if c = '-' || ('0' ≤ c && c ≤ '9') then (c :: rest, some VTag.vNumber)
    else (c :: rest, none)

/-- The pool-counter unit of the variant a given `Identify` dispatch
allocates from. -/
def tagUnit : VTag → Pools
  | VTag.vObject => ⟨1, 0, 0, 0, 0, 0⟩
  | VTag.vArray => ⟨0, 1, 0, 0, 0, 0⟩
  | VTag.vNumber => ⟨0, 0, 0, 1, 0, 0⟩
  | VTag.vString => ⟨0, 0, 0, 0, 1, 0⟩
  | VTag.vReserved => ⟨0, 0, 0, 0, 0, 1⟩

/-- Does a child list start with a String node (an Element's key)? -/
def headIsString : List JNode → Bool
  | JNode.string _ :: _ => true
  | _ => false

mutual

/-- Well-formedness of Element nodes in a tree: every Element has at least
one child and its first child is a String (the key). -/
def elemWF : JNode → Bool
  | JNode.object ch => elemWFList ch
  | JNode.array ch => elemWFList ch
  | JNode.element ch => headIsString ch && elemWFList ch
  | JNode.string _ => true
  | JNode.number _ => true
  | JNode.reserved _ => true

def elemWFList : List JNode → Bool
  | [] => true
  | n :: rest => elemWF n && elemWFList rest

end

/-- The error slot does not hold `JSON_ERROR_EMPTY_DOCUMENT`. -/
def noEmptyErr (st : DocState) : Prop :=
  st.err.errorID ≠ JsonError.JSON_ERROR_EMPTY_DOCUMENT

/-- Result predicate of the shared run loop `jsonNodeParseDeep`: the loop
never records `JSON_ERROR_EMPTY_DOCUMENT`, and on a non-aborted outcome
(returned cursor or returned null) the pool counters grew by exactly the
nodes it linked, all of which are Element-well-formed. -/
def RunOut (st : DocState) (res : DocState × List JNode × RunRes) : Prop :=
  (noEmptyErr st → noEmptyErr res.1) ∧
  (res.2.2 = RunRes.fail ∨ (∃ rest, res.2.2 = RunRes.ok rest) →
    res.1.pools = poolsAdd st.pools (listCounts res.2.1) ∧
    elemWFList res.2.1 = true)

/-- Result predicate of the variant dispatch `parseValue`: accounting is
stated relative to the unit the caller's `Identify` already allocated — a
successful parse leaves exactly the node's subtree allocated, a failed one
leaves exactly the partial node that the caller's `DeleteNode` will free. -/
def ValueOut (t : VTag) (st : DocState) (res : DocState × PRes) : Prop :=
  (noEmptyErr st → noEmptyErr res.1) ∧
  (∀ node rest, res.2 = PRes.ok node rest →
    poolsAdd res.1.pools (tagUnit t) = poolsAdd st.pools (nodeCounts node) ∧
    elemWF node = true) ∧
  (∀ pnode, res.2 = PRes.fail pnode →
    poolsAdd res.1.pools (tagUnit t) = poolsAdd st.pools (nodeCounts pnode))

/-- Result predicate of `jsonElementParseDeep`: the result node is an
Element carrying the children the two run phases linked; a successful
Element is well-formed (its first child is the String key guaranteed by the
leading `"` check). -/
def ElemOut (st : DocState) (res : DocState × PRes) : Prop :=
  (noEmptyErr st → noEmptyErr res.1) ∧
  (∀ node rest, res.2 = PRes.ok node rest →
    ∃ kids, node = JNode.element kids ∧
      res.1.pools = poolsAdd st.pools (listCounts kids) ∧ elemWF node = true) ∧
  (∀ pnode, res.2 = PRes.fail pnode →
    ∃ kids, pnode = JNode.element kids ∧
      res.1.pools = poolsAdd st.pools (listCounts kids))

/-- Result predicate of `jsonObjectParseElement`: success hands back a
well-formed Element accounted in the pools; failure leaves the counters
exactly as they were (the element and its children were freed). -/
def ObjElemOut (st : DocState) (res : DocState × ERes) : Prop :=
  (noEmptyErr st → noEmptyErr res.1) ∧
  (∀ e rest, res.2 = ERes.ok e rest →
    res.1.pools = poolsAdd st.pools (nodeCounts e) ∧ elemWF e = true) ∧
  (res.2 = ERes.fail → res.1.pools = st.pools)

/-- Shared result predicate of the Object / Array body parses and their
comma loops, generalized over the children already linked: the result node
is the container (built by `mk`) holding the accumulated children followed
by the newly linked ones, which are accounted in the pools and
Element-well-formed. -/
def NodeOut (mk : List JNode → JNode) (acc : List JNode) (st : DocState)
    (res : DocState × PRes) : Prop :=
  (noEmptyErr st → noEmptyErr res.1) ∧
  (∀ node rest, res.2 = PRes.ok node rest →
    ∃ nk, node = mk (acc ++ nk) ∧
      res.1.pools = poolsAdd st.pools (listCounts nk) ∧ elemWFList nk = true) ∧
  (∀ pnode, res.2 = PRes.fail pnode →
    ∃ nk, pnode = mk (acc ++ nk) ∧
      res.1.pools = poolsAdd st.pools (listCounts nk))

def RunInv (f : Nat) : Prop :=
  ∀ st json, RunOut st (jsonNodeParseDeep f st json)

def ValueInv (f : Nat) : Prop :=
  ∀ t st json, ValueOut t st (parseValue f t st json)

def ElemInv (f : Nat) : Prop :=
  ∀ st json, ElemOut st (jsonElementParseDeep f st json)

def ObjElemInv (f : Nat) : Prop :=
  ∀ st json, ObjElemOut st (jsonObjectParseElement f st json)

def ObjInv (f : Nat) : Prop :=
  ∀ st json, NodeOut JNode.object [] st (jsonObjectParseDeep f st json)

def ObjLoopInv (f : Nat) : Prop :=
  ∀ st acc json, NodeOut JNode.object acc st (jsonObjectLoop f st acc json)

def ArrInv (f : Nat) : Prop :=
  ∀ st json, NodeOut JNode.array [] st (jsonArrayParseDeep f st json)

def ArrLoopInv (f : Nat) : Prop :=
  ∀ st acc json, NodeOut JNode.array acc st (jsonArrayLoop f st acc json)

theorem poolsAdd_zero (p : Pools) : poolsAdd p zeroPools = p := by
  cases p
  simp [poolsAdd, zeroPools]

theorem zero_poolsAdd (p : Pools) : poolsAdd zeroPools p = p := by
  cases p
  simp [poolsAdd, zeroPools]

theorem poolsAdd_assoc (a b c : Pools) :
    poolsAdd (poolsAdd a b) c = poolsAdd a (poolsAdd b c) := by
  cases a
  cases b
  cases c
  simp only [poolsAdd, Pools.mk.injEq]
  omega

theorem poolsAdd_comm (a b : Pools) : poolsAdd a b = poolsAdd b a := by
  cases a
  cases b
  simp only [poolsAdd, Pools.mk.injEq]
  omega

theorem poolsAdd_left_comm (a b c : Pools) :
    poolsAdd a (poolsAdd b c) = poolsAdd b (poolsAdd a c) := by
  cases a
  cases b
  cases c
  simp only [poolsAdd, Pools.mk.injEq]
  omega

theorem poolsAdd_right_cancel {a b c : Pools}
    (h : poolsAdd a c = poolsAdd b c) : a = b := by
  cases a
  cases b
  cases c
  simp only [poolsAdd, Pools.mk.injEq] at h ⊢
  omega

theorem poolsSub_poolsAdd_cancel (a b : Pools) :
    poolsSub (poolsAdd a b) b = a := by
  cases a
  cases b
  simp only [poolsSub, poolsAdd, Pools.mk.injEq]
  omega

theorem listCounts_nil : listCounts [] = zeroPools := rfl

theorem listCounts_cons (n : JNode) (l : List JNode) :
    listCounts (n :: l) = poolsAdd (nodeCounts n) (listCounts l) := rfl

theorem listCounts_append (a b : List JNode) :
    listCounts (a ++ b) = poolsAdd (listCounts a) (listCounts b) := by
  induction a with
  | nil => simp [listCounts_nil, zero_poolsAdd]
  | cons n rest ih =>
    simp [listCounts_cons, ih, poolsAdd_assoc]

theorem elemWFList_nil : elemWFList [] = true := rfl

theorem elemWFList_cons (n : JNode) (l : List JNode) :
    elemWFList (n :: l) = (elemWF n && elemWFList l) := rfl

theorem elemWFList_append (a b : List JNode) :
    elemWFList (a ++ b) = (elemWFList a && elemWFList b) := by
  induction a with
  | nil => simp [elemWFList_nil]
  | cons n rest ih =>
    simp [elemWFList_cons, ih, Bool.and_assoc]

theorem setErrD_pools (st : DocState) (e : JsonError) :
    (setErrD st e).pools = st.pools := rfl

theorem setErrD_noEmpty {st : DocState} {e : JsonError}
    (he : e ≠ JsonError.JSON_ERROR_EMPTY_DOCUMENT)
    (h : noEmptyErr st) : noEmptyErr (setErrD st e) := by
  unfold noEmptyErr setErrD setError at *
  by_cases h0 : st.err.errorID = JsonError.JSON_NO_ERROR <;> simp [h0, he, h]

theorem freeNode_err (st : DocState) (n : JNode) : (freeNode st n).err = st.err := rfl

theorem freeNode_noEmpty {st : DocState} (n : JNode)
    (h : noEmptyErr st) : noEmptyErr (freeNode st n) := h

theorem freeNode_pools (st : DocState) (n : JNode) :
    (freeNode st n).pools = poolsSub st.pools (nodeCounts n) := rfl

theorem setErrD_freeNode_pools (st : DocState) (n : JNode) (e : JsonError) :
    (setErrD (freeNode st n) e).pools = poolsSub st.pools (nodeCounts n) := rfl

theorem identify_err (st : DocState) (json : List Char) :
    (identify st json).1.err = st.err := by
  unfold identify
  split
  · rfl
  · split_ifs <;> rfl

theorem identify_some {st : DocState} {json : List Char} {st1 : DocState}
    {json1 : List Char} {t : VTag}
    (h : identify st json = (st1, json1, some t)) :
    st1.err = st.err ∧ st1.pools = poolsAdd st.pools (tagUnit t) := by
  unfold identify at h
  split at h
  · simp at h
  · split_ifs at h
    all_goals
      try (exact absurd (congrArg (fun x => x.2.2) h) (fun hc => Option.noConfusion hc))
    all_goals
      obtain rfl : st1 = _ := (congrArg Prod.fst h).symm
    all_goals
      obtain rfl : t = _ := (Option.some.inj (congrArg (fun x => x.2.2) h)).symm
    all_goals
      refine ⟨rfl, ?_⟩
    all_goals
      cases st with
      | mk e p =>
        cases p
        simp [allocObject, allocArray, allocElement, allocNumber,
          allocString, allocReserved, poolsAdd, tagUnit]

theorem identify_none {st : DocState} {json : List Char} {st1 : DocState}
    {json1 : List Char}
    (h : identify st json = (st1, json1, none)) : st1 = st := by
  unfold identify at h
  split at h
  · exact (congrArg Prod.fst h).symm
  · split_ifs at h
    all_goals
      try (exact absurd (congrArg (fun x => x.2.2) h) (fun hc => Option.noConfusion hc))
    all_goals
      exact (congrArg Prod.fst h).symm

theorem reserved_noEmpty (st : DocState) (json : List Char)
    (h : noEmptyErr st) : noEmptyErr (jsonReservedParseDeep st json).1 := by
  unfold jsonReservedParseDeep
  split_ifs <;> first | exact h | exact setErrD_noEmpty (by decide) h

theorem reserved_ok {st : DocState} {json : List Char} {st' : DocState}
    {node : JNode} {rest : List Char}
    (h : jsonReservedParseDeep st json = (st', PRes.ok node rest)) :
    poolsAdd st'.pools (tagUnit VTag.vReserved) =
      poolsAdd st.pools (nodeCounts node) ∧ elemWF node = true := by
  unfold jsonReservedParseDeep at h
  split_ifs at h <;> simp at h
  all_goals obtain ⟨rfl, rfl, rfl⟩ := h
  all_goals exact ⟨rfl, rfl⟩

theorem reserved_fail {st : DocState} {json : List Char} {st' : DocState}
    {pnode : JNode}
    (h : jsonReservedParseDeep st json = (st', PRes.fail pnode)) :
    poolsAdd st'.pools (tagUnit VTag.vReserved) =
      poolsAdd st.pools (nodeCounts pnode) := by
  unfold jsonReservedParseDeep at h
  split_ifs at h <;> simp at h
  obtain ⟨rfl, rfl⟩ := h
  rfl

theorem number_noEmpty (st : DocState) (json : List Char)
    (h : noEmptyErr st) : noEmptyErr (jsonNumberParseDeep st json).1 := by
  unfold jsonNumberParseDeep
  dsimp only
  split_ifs <;> first | exact h | exact setErrD_noEmpty (by decide) h

theorem number_ok {st : DocState} {json : List Char} {st' : DocState}
    {node : JNode} {rest : List Char}
    (h : jsonNumberParseDeep st json = (st', PRes.ok node rest)) :
    poolsAdd st'.pools (tagUnit VTag.vNumber) =
      poolsAdd st.pools (nodeCounts node) ∧ elemWF node = true := by
  unfold jsonNumberParseDeep at h
  dsimp only at h
  split_ifs at h <;> simp at h
  obtain ⟨rfl, rfl, rfl⟩ := h
  exact ⟨rfl, rfl⟩

theorem number_fail {st : DocState} {json : List Char} {st' : DocState}
    {pnode : JNode}
    (h : jsonNumberParseDeep st json = (st', PRes.fail pnode)) :
    poolsAdd st'.pools (tagUnit VTag.vNumber) =
      poolsAdd st.pools (nodeCounts pnode) := by
  unfold jsonNumberParseDeep at h
  dsimp only at h
  split_ifs at h <;> simp at h
  obtain ⟨rfl, rfl⟩ := h
  rfl

theorem string_noEmpty (st : DocState) (json : List Char)
    (h : noEmptyErr st) : noEmptyErr (jsonStringParseDeep st json).1 := by
  unfold jsonStringParseDeep
  split <;> first | exact h | exact setErrD_noEmpty (by decide) h

theorem string_ok {st : DocState} {json : List Char} {st' : DocState}
    {node : JNode} {rest : List Char}
    (h : jsonStringParseDeep st json = (st', PRes.ok node rest)) :
    (poolsAdd st'.pools (tagUnit VTag.vString) =
      poolsAdd st.pools (nodeCounts node) ∧ elemWF node = true) ∧
    (∃ s, node = JNode.string s) := by
  unfold jsonStringParseDeep at h
  split at h <;> simp at h
  obtain ⟨rfl, rfl, rfl⟩ := h
  exact ⟨⟨rfl, rfl⟩, _, rfl⟩

theorem string_fail {st : DocState} {json : List Char} {st' : DocState}
    {pnode : JNode}
    (h : jsonStringParseDeep st json = (st', PRes.fail pnode)) :
    poolsAdd st'.pools (tagUnit VTag.vString) =
      poolsAdd st.pools (nodeCounts pnode) := by
  unfold jsonStringParseDeep at h
  split at h <;> simp at h
  obtain ⟨rfl, rfl⟩ := h
  rfl

theorem value_vString_ok {f : Nat} {st : DocState} {json : List Char}
    {st' : DocState} {node : JNode} {rest : List Char}
    (h : parseValue f VTag.vString st json = (st', PRes.ok node rest)) :
    ∃ s, node = JNode.string s := by
  match f with
  | 0 => simp [parseValue] at h
  | Nat.succ f =>
    unfold parseValue at h
    exact (string_ok h).2

theorem run_quote_head {f : Nat} {st : DocState} {tl rest : List Char}
    {st' : DocState} {kids : List JNode}
    (h : jsonNodeParseDeep f st ('\"' :: tl) = (st', kids, RunRes.ok rest)) :
    headIsString kids = true := by
  match f with
  | 0 => simp [jsonNodeParseDeep] at h
  | Nat.succ f =>
    unfold jsonNodeParseDeep at h
    dsimp only at h
    rw [show identify st ('\"' :: tl) =
          (allocString st, tl, some VTag.vString) from rfl] at h
    dsimp only at h
    rcases hpv : parseValue f VTag.vString (allocString st) tl with ⟨st2, pr⟩
    rw [hpv] at h
    cases pr with
    | ok node rest1 =>
      dsimp only at h
      rcases hrun : jsonNodeParseDeep f st2 (skipWhiteSpace rest1) with
        ⟨st3, kids1, r1⟩
      rw [hrun] at h
      dsimp only at h
      obtain ⟨s, rfl⟩ := value_vString_ok hpv
      have hk : JNode.string s :: kids1 = kids :=
        congrArg (fun x => x.2.1) h
      rw [← hk]
      rfl
    | fail pnode => simp at h
    | noFuel => simp at h
    | ub => simp at h

theorem alloc_cancel {stp s2p u nc : Pools}
    (h1 : poolsAdd s2p u = poolsAdd (poolsAdd stp u) nc) :
    s2p = poolsAdd stp nc := by
  apply poolsAdd_right_cancel (c := u)
  rw [h1, poolsAdd_assoc, poolsAdd_assoc, poolsAdd_comm u nc]

theorem run_zero : RunInv 0 := by
  intro st json
  refine ⟨fun h => h, ?_⟩
  rintro (hab | ⟨rest, hab⟩) <;> simp [jsonNodeParseDeep] at hab

theorem value_zero : ValueInv 0 := by
  intro t st json
  refine ⟨fun h => h, ?_, ?_⟩
  · intro node rest hab
    simp [parseValue] at hab
  · intro pnode hab
    simp [parseValue] at hab

theorem elem_zero : ElemInv 0 := by
  intro st json
  refine ⟨fun h => h, ?_, ?_⟩
  · intro node rest hab
    simp [jsonElementParseDeep] at hab
  · intro pnode hab
    simp [jsonElementParseDeep] at hab

theorem objelem_zero : ObjElemInv 0 := by
  intro st json
  refine ⟨fun h => h, ?_, ?_⟩
  · intro e rest hab
    simp [jsonObjectParseElement] at hab
  · intro hab
    simp [jsonObjectParseElement] at hab

theorem obj_zero : ObjInv 0 := by
  intro st json
  refine ⟨fun h => h, ?_, ?_⟩
  · intro node rest hab
    simp [jsonObjectParseDeep] at hab
  · intro pnode hab
    simp [jsonObjectParseDeep] at hab

theorem objloop_zero : ObjLoopInv 0 := by
  intro st acc json
  refine ⟨fun h => h, ?_, ?_⟩
  · intro node rest hab
    simp [jsonObjectLoop] at hab
  · intro pnode hab
    simp [jsonObjectLoop] at hab

theorem arr_zero : ArrInv 0 := by
  intro st json
  refine ⟨fun h => h, ?_, ?_⟩
  · intro node rest hab
    simp [jsonArrayParseDeep] at hab
  · intro pnode hab
    simp [jsonArrayParseDeep] at hab

theorem arrloop_zero : ArrLoopInv 0 := by
  intro st acc json
  refine ⟨fun h => h, ?_, ?_⟩
  · intro node rest hab
    simp [jsonArrayLoop] at hab
  · intro pnode hab
    simp [jsonArrayLoop] at hab

theorem run_succ (f : Nat) (ihVal : ValueInv f) (ihRun : RunInv f) :
    RunInv (Nat.succ f) := by
  intro st json
  cases json with
  | nil =>
    refine ⟨fun h => h, fun _ => ⟨(poolsAdd_zero st.pools).symm, rfl⟩⟩
  | cons c0 rest0 =>
    unfold jsonNodeParseDeep
    dsimp only
    rcases hid : identify st (c0 :: rest0) with ⟨st1, json1, tagq⟩
    cases tagq with
    | none =>
      obtain rfl : st1 = st := identify_none hid
      exact ⟨fun h => h, fun _ => ⟨(poolsAdd_zero st1.pools).symm, rfl⟩⟩
    | some t =>
      obtain ⟨hiderr, hidpools⟩ := identify_some hid
      dsimp only
      rcases hpv : parseValue f t st1 json1 with ⟨st2, pr⟩
      have vout := ihVal t st1 json1
      rw [hpv] at vout
      have hst1 : noEmptyErr st → noEmptyErr st1 := by
        intro h
        unfold noEmptyErr
        rw [hiderr]
        exact h
      cases pr with
      | ok node rest1 =>
        dsimp only
        rcases hrun : jsonNodeParseDeep f st2 (skipWhiteSpace rest1) with
          ⟨st3, kids1, r1⟩
        have rout := ihRun st2 (skipWhiteSpace rest1)
        rw [hrun] at rout
        obtain ⟨hvp, hvw⟩ := vout.2.1 node rest1 rfl
        have hst2 : st2.pools = poolsAdd st.pools (nodeCounts node) := by
          apply alloc_cancel (u := tagUnit t)
          rw [hvp, hidpools]
        refine ⟨fun h => rout.1 (vout.1 (hst1 h)), ?_⟩
        intro hab
        obtain ⟨hrp, hrw⟩ := rout.2 hab
        constructor
        · show st3.pools = poolsAdd st.pools (listCounts (node :: kids1))
          rw [hrp, hst2, listCounts_cons, poolsAdd_assoc]
        · show elemWFList (node :: kids1) = true
          rw [elemWFList_cons, hvw, hrw]
          rfl
      | fail pnode =>
        dsimp only
        have hvp := vout.2.2 pnode rfl
        have hst2 : st2.pools = poolsAdd st.pools (nodeCounts pnode) := by
          apply alloc_cancel (u := tagUnit t)
          rw [hvp, hidpools]
        refine ⟨?_, ?_⟩
        · intro h
          exact setErrD_noEmpty (by decide) (freeNode_noEmpty _ (vout.1 (hst1 h)))
        · intro _
          constructor
          · show poolsSub st2.pools (nodeCounts pnode) =
              poolsAdd st.pools (listCounts ([] : List JNode))
            rw [hst2, poolsSub_poolsAdd_cancel]
            exact (poolsAdd_zero st.pools).symm
          · rfl
      | noFuel =>
        dsimp only
        refine ⟨fun h => vout.1 (hst1 h), ?_⟩
        rintro (hab | ⟨rest, hab⟩) <;> simp at hab
      | ub =>
        dsimp only
        refine ⟨fun h => vout.1 (hst1 h), ?_⟩
        rintro (hab | ⟨rest, hab⟩) <;> simp at hab

theorem allocElement_pools (st : DocState) :
    (allocElement st).pools = poolsAdd st.pools ⟨0, 0, 1, 0, 0, 0⟩ := by
  cases st with
  | mk e p =>
    cases p
    simp [allocElement, poolsAdd]

theorem headIsString_append {a : List JNode} (b : List JNode)
    (h : headIsString a = true) : headIsString (a ++ b) = true := by
  cases a with
  | nil => simp [headIsString] at h
  | cons n l =>
    cases n <;> simp [headIsString] at h ⊢

theorem nodeCounts_object (ch : List JNode) :
    nodeCounts (JNode.object ch) = poolsAdd ⟨1, 0, 0, 0, 0, 0⟩ (listCounts ch) := rfl

theorem nodeCounts_array (ch : List JNode) :
    nodeCounts (JNode.array ch) = poolsAdd ⟨0, 1, 0, 0, 0, 0⟩ (listCounts ch) := rfl

theorem nodeCounts_element (ch : List JNode) :
    nodeCounts (JNode.element ch) = poolsAdd ⟨0, 0, 1, 0, 0, 0⟩ (listCounts ch) := rfl

theorem elemWF_object (ch : List JNode) :
    elemWF (JNode.object ch) = elemWFList ch := rfl

theorem elemWF_array (ch : List JNode) :
    elemWF (JNode.array ch) = elemWFList ch := rfl

theorem elemWF_element (ch : List JNode) :
    elemWF (JNode.element ch) = (headIsString ch && elemWFList ch) := rfl

theorem value_succ (f : Nat) (ihObj : ObjInv f) (ihArr : ArrInv f) :
    ValueInv (Nat.succ f) := by
  intro t st json
  cases t with
  | vReserved =>
    unfold parseValue
    dsimp only
    rcases hres : jsonReservedParseDeep st json with ⟨st1, pr⟩
    refine ⟨?_, ?_, ?_⟩
    · have := reserved_noEmpty st json
      rw [hres] at this
      exact this
    · intro node rest h
      obtain rfl : pr = PRes.ok node rest := h
      exact reserved_ok hres
    · intro pnode h
      obtain rfl : pr = PRes.fail pnode := h
      exact reserved_fail hres
  | vString =>
    unfold parseValue
    dsimp only
    rcases hres : jsonStringParseDeep st json with ⟨st1, pr⟩
    refine ⟨?_, ?_, ?_⟩
    · have := string_noEmpty st json
      rw [hres] at this
      exact this
    · intro node rest h
      obtain rfl : pr = PRes.ok node rest := h
      exact (string_ok hres).1
    · intro pnode h
      obtain rfl : pr = PRes.fail pnode := h
      exact string_fail hres
  | vNumber =>
    unfold parseValue
    dsimp only
    rcases hres : jsonNumberParseDeep st json with ⟨st1, pr⟩
    refine ⟨?_, ?_, ?_⟩
    · have := number_noEmpty st json
      rw [hres] at this
      exact this
    · intro node rest h
      obtain rfl : pr = PRes.ok node rest := h
      exact number_ok hres
    · intro pnode h
      obtain rfl : pr = PRes.fail pnode := h
      exact number_fail hres
  | vObject =>
    unfold parseValue
    dsimp only
    rcases hres : jsonObjectParseDeep f st json with ⟨st1, pr⟩
    have oout := ihObj st json
    rw [hres] at oout
    refine ⟨oout.1, ?_, ?_⟩
    · intro node rest h
      obtain ⟨nk, hnode, hp, hw⟩ := oout.2.1 node rest h
      rw [List.nil_append] at hnode
      subst hnode
      constructor
      · rw [hp, nodeCounts_object, poolsAdd_assoc,
          poolsAdd_comm (listCounts nk) (tagUnit VTag.vObject)]
        rfl
      · rw [elemWF_object]
        exact hw
    · intro pnode h
      obtain ⟨nk, hnode, hp⟩ := oout.2.2 pnode h
      rw [List.nil_append] at hnode
      subst hnode
      rw [hp, nodeCounts_object, poolsAdd_assoc,
        poolsAdd_comm (listCounts nk) (tagUnit VTag.vObject)]
      rfl
  | vArray =>
    unfold parseValue
    dsimp only
    rcases hres : jsonArrayParseDeep f st json with ⟨st1, pr⟩
    have oout := ihArr st json
    rw [hres] at oout
    refine ⟨oout.1, ?_, ?_⟩
    · intro node rest h
      obtain ⟨nk, hnode, hp, hw⟩ := oout.2.1 node rest h
      rw [List.nil_append] at hnode
      subst hnode
      constructor
      · rw [hp, nodeCounts_array, poolsAdd_assoc,
          poolsAdd_comm (listCounts nk) (tagUnit VTag.vArray)]
        rfl
      · rw [elemWF_array]
        exact hw
    · intro pnode h
      obtain ⟨nk, hnode, hp⟩ := oout.2.2 pnode h
      rw [List.nil_append] at hnode
      subst hnode
      rw [hp, nodeCounts_array, poolsAdd_assoc,
        poolsAdd_comm (listCounts nk) (tagUnit VTag.vArray)]
      rfl

theorem elem_succ (f : Nat) (ihRun : RunInv f) : ElemInv (Nat.succ f) := by
  intro st json
  unfold jsonElementParseDeep
  split
  case _ tl =>
    rcases hk : jsonNodeParseDeep f st ('\"' :: tl) with ⟨st1, kids1, r1⟩
    have kout := ihRun st ('\"' :: tl)
    rw [hk] at kout
    unfold RunOut at kout
    dsimp only at kout
    cases r1 with
    | ok json1 =>
      dsimp only
      split
      case _ json2 heq =>
        rcases hv : jsonNodeParseDeep f st1 json2 with ⟨st2, kids2, r2⟩
        have vout := ihRun st1 json2
        rw [hv] at vout
        unfold RunOut at vout
        dsimp only at vout
        obtain ⟨hkp, hkw⟩ := kout.2 (Or.inr ⟨json1, rfl⟩)
        cases r2 with
        | ok json3 =>
          dsimp only
          obtain ⟨hvp, hvw⟩ := vout.2 (Or.inr ⟨json3, rfl⟩)
          refine ⟨fun h => vout.1 (kout.1 h), ?_, ?_⟩
          · intro node rest h
            obtain ⟨rfl, rfl⟩ :
                JNode.element (kids1 ++ kids2) = node ∧
                  skipWhiteSpace json3 = rest := by
              simpa using h
            refine ⟨kids1 ++ kids2, rfl, ?_, ?_⟩
            · show st2.pools = poolsAdd st.pools (listCounts (kids1 ++ kids2))
              rw [hvp, hkp, listCounts_append, poolsAdd_assoc]
            · have hh : headIsString kids1 = true := run_quote_head hk
              simp [elemWF_element, elemWFList_append, hkw, hvw,
                headIsString_append kids2 hh]
          · intro pnode h
            simp at h
        | fail =>
          dsimp only
          obtain ⟨hvp, _⟩ := vout.2 (Or.inl rfl)
          refine ⟨fun h => setErrD_noEmpty (by decide) (vout.1 (kout.1 h)),
            ?_, ?_⟩
          · intro node rest h
            simp at h
          · intro pnode h
            obtain rfl : JNode.element (kids1 ++ kids2) = pnode := by
              simpa using h
            refine ⟨kids1 ++ kids2, rfl, ?_⟩
            show st2.pools = poolsAdd st.pools (listCounts (kids1 ++ kids2))
            rw [hvp, hkp, listCounts_append, poolsAdd_assoc]
        | noFuel =>
          dsimp only
          refine ⟨fun h => vout.1 (kout.1 h), ?_, ?_⟩
          · intro node rest h
            simp at h
          · intro pnode h
            simp at h
        | ub =>
          dsimp only
          refine ⟨fun h => vout.1 (kout.1 h), ?_, ?_⟩
          · intro node rest h
            simp at h
          · intro pnode h
            simp at h
      case _ hne =>
        obtain ⟨hkp, _⟩ := kout.2 (Or.inr ⟨json1, rfl⟩)
        refine ⟨fun h => setErrD_noEmpty (by decide) (kout.1 h), ?_, ?_⟩
        · intro node rest h
          simp at h
        · intro pnode h
          obtain rfl : JNode.element kids1 = pnode := by simpa using h
          exact ⟨kids1, rfl, hkp⟩
    | fail =>
      dsimp only
      obtain ⟨hkp, _⟩ := kout.2 (Or.inl rfl)
      refine ⟨fun h => setErrD_noEmpty (by decide) (kout.1 h), ?_, ?_⟩
      · intro node rest h
        simp at h
      · intro pnode h
        obtain rfl : JNode.element kids1 = pnode := by simpa using h
        exact ⟨kids1, rfl, hkp⟩
    | noFuel =>
      dsimp only
      refine ⟨fun h => kout.1 h, ?_, ?_⟩
      · intro node rest h
        simp at h
      · intro pnode h
        simp at h
    | ub =>
      dsimp only
      refine ⟨fun h => kout.1 h, ?_, ?_⟩
      · intro node rest h
        simp at h
      · intro pnode h
        simp at h
  case _ hne =>
    refine ⟨fun h => setErrD_noEmpty (by decide) h, ?_, ?_⟩
    · intro node rest h
      simp at h
    · intro pnode h
      obtain rfl : JNode.element [] = pnode := by simpa using h
      refine ⟨[], rfl, ?_⟩
      show st.pools = poolsAdd st.pools (listCounts ([] : List JNode))
      exact (poolsAdd_zero st.pools).symm

theorem objelem_succ (f : Nat) (ihElem : ElemInv f) :
    ObjElemInv (Nat.succ f) := by
  intro st json
  unfold jsonObjectParseElement
  dsimp only
  rcases he : jsonElementParseDeep f (allocElement st) json with ⟨st2, pr⟩
  have eout := ihElem (allocElement st) json
  rw [he] at eout
  unfold ElemOut at eout
  dsimp only at eout
  cases pr with
  | ok node rest =>
    dsimp only
    obtain ⟨kids, rfl, hp, hw⟩ := eout.2.1 node rest rfl
    refine ⟨fun h => eout.1 h, ?_, ?_⟩
    · intro e rest2 h
      obtain ⟨rfl, rfl⟩ :
          JNode.element kids = e ∧ skipWhiteSpace rest = rest2 := by
        simpa using h
      refine ⟨?_, hw⟩
      show st2.pools = poolsAdd st.pools (nodeCounts (JNode.element kids))
      rw [hp, allocElement_pools, nodeCounts_element, poolsAdd_assoc]
    · intro h
      simp at h
  | fail pnode =>
    dsimp only
    obtain ⟨kids, rfl, hp⟩ := eout.2.2 pnode rfl
    refine ⟨fun h =>
      setErrD_noEmpty (by decide) (freeNode_noEmpty _ (eout.1 h)), ?_, ?_⟩
    · intro e rest h
      simp at h
    · intro _
      show poolsSub st2.pools (nodeCounts (JNode.element kids)) = st.pools
      rw [hp, allocElement_pools, nodeCounts_element, poolsAdd_assoc,
        poolsSub_poolsAdd_cancel]
  | noFuel =>
    dsimp only
    refine ⟨fun h => eout.1 h, ?_, ?_⟩
    · intro e rest h
      simp at h
    · intro h
      simp at h
  | ub =>
    dsimp only
    refine ⟨fun h => eout.1 h, ?_, ?_⟩
    · intro e rest h
      simp at h
    · intro h
      simp at h

theorem objloop_succ (f : Nat) (ihObjE : ObjElemInv f) (ihObjL : ObjLoopInv f) :
    ObjLoopInv (Nat.succ f) := by
  intro st acc json
  unfold jsonObjectLoop
  split
  case _ json1 =>
    rcases hoe : jsonObjectParseElement f st json1 with ⟨st1, er⟩
    have oeout := ihObjE st json1
    rw [hoe] at oeout
    unfold ObjElemOut at oeout
    dsimp only at oeout
    cases er with
    | ok e json2 =>
      dsimp only
      obtain ⟨hep, hew⟩ := oeout.2.1 e json2 rfl
      rcases hl : jsonObjectLoop f st1 (acc ++ [e]) json2 with ⟨st2, pr⟩
      have lout := ihObjL st1 (acc ++ [e]) json2
      rw [hl] at lout
      unfold NodeOut at lout
      dsimp only at lout
      refine ⟨fun h => lout.1 (oeout.1 h), ?_, ?_⟩
      · intro node rest h
        obtain ⟨nk, rfl, hp, hw⟩ := lout.2.1 node rest h
        refine ⟨e :: nk, by simp [List.append_assoc], ?_, ?_⟩
        · rw [hp, hep, listCounts_cons, poolsAdd_assoc]
        · simp [elemWFList_cons, hew, hw]
      · intro pnode h
        obtain ⟨nk, rfl, hp⟩ := lout.2.2 pnode h
        refine ⟨e :: nk, by simp [List.append_assoc], ?_⟩
        rw [hp, hep, listCounts_cons, poolsAdd_assoc]
    | fail =>
      dsimp only
      have hp := oeout.2.2 rfl
      refine ⟨fun h => setErrD_noEmpty (by decide) (oeout.1 h), ?_, ?_⟩
      · intro node rest h
        simp at h
      · intro pnode h
        obtain rfl : JNode.object acc = pnode := by simpa using h
        refine ⟨[], by rw [List.append_nil], ?_⟩
        show st1.pools = poolsAdd st.pools (listCounts ([] : List JNode))
        rw [hp]
        exact (poolsAdd_zero st.pools).symm
    | noFuel =>
      dsimp only
      refine ⟨fun h => oeout.1 h, ?_, ?_⟩
      · intro node rest h
        simp at h
      · intro pnode h
        simp at h
    | ub =>
      dsimp only
      refine ⟨fun h => oeout.1 h, ?_, ?_⟩
      · intro node rest h
        simp at h
      · intro pnode h
        simp at h
  case _ rest =>
    refine ⟨fun h => h, ?_, ?_⟩
    · intro node rest2 h
      obtain ⟨rfl, rfl⟩ : JNode.object acc = node ∧ rest = rest2 := by
        simpa using h
      refine ⟨[], by rw [List.append_nil], ?_, rfl⟩
      exact (poolsAdd_zero st.pools).symm
    · intro pnode h
      simp at h
  case _ hne1 hne2 =>
    refine ⟨fun h => setErrD_noEmpty (by decide) h, ?_, ?_⟩
    · intro node rest h
      simp at h
    · intro pnode h
      obtain rfl : JNode.object acc = pnode := by simpa using h
      refine ⟨[], by rw [List.append_nil], ?_⟩
      show st.pools = poolsAdd st.pools (listCounts ([] : List JNode))
      exact (poolsAdd_zero st.pools).symm

theorem obj_succ (f : Nat) (ihObjE : ObjElemInv f) (ihObjL : ObjLoopInv f) :
    ObjInv (Nat.succ f) := by
  intro st json
  unfold jsonObjectParseDeep
  split
  case _ heq =>
    refine ⟨fun h => setErrD_noEmpty (by decide) h, ?_, ?_⟩
    · intro node rest h
      simp at h
    · intro pnode h
      obtain rfl : JNode.object [] = pnode := by simpa using h
      refine ⟨[], rfl, ?_⟩
      show st.pools = poolsAdd st.pools (listCounts ([] : List JNode))
      exact (poolsAdd_zero st.pools).symm
  case _ c rest heq =>
    split_ifs with hc
    · refine ⟨fun h => h, ?_, ?_⟩
      · intro node rest2 h
        obtain ⟨rfl, rfl⟩ : JNode.object [] = node ∧ rest = rest2 := by
          simpa using h
        refine ⟨[], rfl, ?_, rfl⟩
        exact (poolsAdd_zero st.pools).symm
      · intro pnode h
        simp at h
    · rcases hoe : jsonObjectParseElement f st (c :: rest) with ⟨st1, er⟩
      have oeout := ihObjE st (c :: rest)
      rw [hoe] at oeout
      unfold ObjElemOut at oeout
      dsimp only at oeout
      cases er with
      | ok e json1 =>
        dsimp only
        obtain ⟨hep, hew⟩ := oeout.2.1 e json1 rfl
        rcases hl : jsonObjectLoop f st1 [e] json1 with ⟨st2, pr⟩
        have lout := ihObjL st1 [e] json1
        rw [hl] at lout
        unfold NodeOut at lout
        dsimp only at lout
        refine ⟨fun h => lout.1 (oeout.1 h), ?_, ?_⟩
        · intro node rest2 h
          obtain ⟨nk, rfl, hp, hw⟩ := lout.2.1 node rest2 h
          refine ⟨e :: nk, rfl, ?_, ?_⟩
          · rw [hp, hep, listCounts_cons, poolsAdd_assoc]
          · simp [elemWFList_cons, hew, hw]
        · intro pnode h
          obtain ⟨nk, rfl, hp⟩ := lout.2.2 pnode h
          refine ⟨e :: nk, rfl, ?_⟩
          rw [hp, hep, listCounts_cons, poolsAdd_assoc]
      | fail =>
        dsimp only
        refine ⟨fun h => oeout.1 h, ?_, ?_⟩
        · intro node rest2 h
          simp at h
        · intro pnode h
          simp at h
      | noFuel =>
        dsimp only
        refine ⟨fun h => oeout.1 h, ?_, ?_⟩
        · intro node rest2 h
          simp at h
        · intro pnode h
          simp at h
      | ub =>
        dsimp only
        refine ⟨fun h => oeout.1 h, ?_, ?_⟩
        · intro node rest2 h
          simp at h
        · intro pnode h
          simp at h

theorem arrloop_succ (f : Nat) (ihRun : RunInv f) (ihArrL : ArrLoopInv f) :
    ArrLoopInv (Nat.succ f) := by
  intro st acc json
  unfold jsonArrayLoop
  split
  case _ json1 =>
    rcases hr : jsonNodeParseDeep f st json1 with ⟨st1, kids, r⟩
    have rout := ihRun st json1
    rw [hr] at rout
    unfold RunOut at rout
    dsimp only at rout
    cases r with
    | ok json2 =>
      dsimp only
      obtain ⟨hrp, hrw⟩ := rout.2 (Or.inr ⟨json2, rfl⟩)
      split
      case _ heq =>
        refine ⟨fun h => setErrD_noEmpty (by decide) (rout.1 h), ?_, ?_⟩
        · intro node rest h
          simp at h
        · intro pnode h
          obtain rfl : JNode.array (acc ++ kids) = pnode := by simpa using h
          exact ⟨kids, rfl, hrp⟩
      case _ j2 heq =>
        rcases hl : jsonArrayLoop f st1 (acc ++ kids) (skipWhiteSpace json2) with
          ⟨st2, pr⟩
        have lout := ihArrL st1 (acc ++ kids) (skipWhiteSpace json2)
        rw [hl] at lout
        unfold NodeOut at lout
        dsimp only at lout
        refine ⟨fun h => lout.1 (rout.1 h), ?_, ?_⟩
        · intro node rest h
          obtain ⟨nk, rfl, hp, hw⟩ := lout.2.1 node rest h
          refine ⟨kids ++ nk, by simp [List.append_assoc], ?_, ?_⟩
          · rw [hp, hrp, listCounts_append, poolsAdd_assoc]
          · simp [elemWFList_append, hrw, hw]
        · intro pnode h
          obtain ⟨nk, rfl, hp⟩ := lout.2.2 pnode h
          refine ⟨kids ++ nk, by simp [List.append_assoc], ?_⟩
          rw [hp, hrp, listCounts_append, poolsAdd_assoc]
    | fail =>
      dsimp only
      obtain ⟨hrp, hrw⟩ := rout.2 (Or.inl rfl)
      refine ⟨fun h => setErrD_noEmpty (by decide) (rout.1 h), ?_, ?_⟩
      · intro node rest h
        simp at h
      · intro pnode h
        obtain rfl : JNode.array (acc ++ kids) = pnode := by simpa using h
        exact ⟨kids, rfl, hrp⟩
    | noFuel =>
      dsimp only
      refine ⟨fun h => rout.1 h, ?_, ?_⟩
      · intro node rest h
        simp at h
      · intro pnode h
        simp at h
    | ub =>
      dsimp only
      refine ⟨fun h => rout.1 h, ?_, ?_⟩
      · intro node rest h
        simp at h
      · intro pnode h
        simp at h
  case _ rest =>
    refine ⟨fun h => h, ?_, ?_⟩
    · intro node rest2 h
      obtain ⟨rfl, rfl⟩ : JNode.array acc = node ∧ rest = rest2 := by
        simpa using h
      refine ⟨[], by rw [List.append_nil], ?_, rfl⟩
      exact (poolsAdd_zero st.pools).symm
    · intro pnode h
      simp at h
  case _ hne1 hne2 =>
    refine ⟨fun h => setErrD_noEmpty (by decide) h, ?_, ?_⟩
    · intro node rest h
      simp at h
    · intro pnode h
      obtain rfl : JNode.array acc = pnode := by simpa using h
      refine ⟨[], by rw [List.append_nil], ?_⟩
      show st.pools = poolsAdd st.pools (listCounts ([] : List JNode))
      exact (poolsAdd_zero st.pools).symm

theorem arr_succ (f : Nat) (ihRun : RunInv f) (ihArrL : ArrLoopInv f) :
    ArrInv (Nat.succ f) := by
  intro st json
  unfold jsonArrayParseDeep
  split
  case _ heq =>
    refine ⟨fun h => setErrD_noEmpty (by decide) h, ?_, ?_⟩
    · intro node rest h
      simp at h
    · intro pnode h
      obtain rfl : JNode.array [] = pnode := by simpa using h
      refine ⟨[], rfl, ?_⟩
      show st.pools = poolsAdd st.pools (listCounts ([] : List JNode))
      exact (poolsAdd_zero st.pools).symm
  case _ c rest heq =>
    split_ifs with hc
    · refine ⟨fun h => h, ?_, ?_⟩
      · intro node rest2 h
        obtain ⟨rfl, rfl⟩ : JNode.array [] = node ∧ rest = rest2 := by
          simpa using h
        refine ⟨[], rfl, ?_, rfl⟩
        exact (poolsAdd_zero st.pools).symm
      · intro pnode h
        simp at h
    · rcases hr : jsonNodeParseDeep f st (c :: rest) with ⟨st1, kids, r⟩
      have rout := ihRun st (c :: rest)
      rw [hr] at rout
      unfold RunOut at rout
      dsimp only at rout
      cases r with
      | ok json1 =>
        dsimp only
        obtain ⟨hrp, hrw⟩ := rout.2 (Or.inr ⟨json1, rfl⟩)
        rcases hl : jsonArrayLoop f st1 kids (skipWhiteSpace json1) with
          ⟨st2, pr⟩
        have lout := ihArrL st1 kids (skipWhiteSpace json1)
        rw [hl] at lout
        unfold NodeOut at lout
        dsimp only at lout
        refine ⟨fun h => lout.1 (rout.1 h), ?_, ?_⟩
        · intro node rest2 h
          obtain ⟨nk, rfl, hp, hw⟩ := lout.2.1 node rest2 h
          refine ⟨kids ++ nk, rfl, ?_, ?_⟩
          · rw [hp, hrp, listCounts_append, poolsAdd_assoc]
          · simp [elemWFList_append, hrw, hw]
        · intro pnode h
          obtain ⟨nk, rfl, hp⟩ := lout.2.2 pnode h
          refine ⟨kids ++ nk, rfl, ?_⟩
          rw [hp, hrp, listCounts_append, poolsAdd_assoc]
      | fail =>
        dsimp only
        obtain ⟨hrp, hrw⟩ := rout.2 (Or.inl rfl)
        refine ⟨fun h => rout.1 h, ?_, ?_⟩
        · intro node rest2 h
          simp at h
        · intro pnode h
          obtain rfl : JNode.array kids = pnode := by simpa using h
          exact ⟨kids, rfl, hrp⟩
      | noFuel =>
        dsimp only
        refine ⟨fun h => rout.1 h, ?_, ?_⟩
        · intro node rest2 h
          simp at h
        · intro pnode h
          simp at h
      | ub =>
        dsimp only
        refine ⟨fun h => rout.1 h, ?_, ?_⟩
        · intro node rest2 h
          simp at h
        · intro pnode h
          simp at h

theorem parseInv (f : Nat) :
    RunInv f ∧ ValueInv f ∧ ElemInv f ∧ ObjElemInv f ∧ ObjInv f ∧
      ObjLoopInv f ∧ ArrInv f ∧ ArrLoopInv f := by
  induction f with
  | zero =>
    exact ⟨run_zero, value_zero, elem_zero, objelem_zero, obj_zero,
      objloop_zero, arr_zero, arrloop_zero⟩
  | succ f ih =>
    obtain ⟨hRun, hVal, hElem, hObjE, hObj, hObjL, hArr, hArrL⟩ := ih
    exact ⟨run_succ f hVal hRun, value_succ f hObj hArr, elem_succ f hRun,
      objelem_succ f hElem, obj_succ f hObjE hObjL,
      objloop_succ f hObjE hObjL, arr_succ f hRun hArrL,
      arrloop_succ f hRun hArrL⟩

theorem documentParse_pools {s : List Char} {err : JsonError}
    {ch : List JNode} {p : Pools}
    (h : documentParse s = DocRes.ret err ch p) : p = listCounts ch := by
  unfold documentParse at h
  split at h
  · obtain ⟨rfl, rfl, rfl⟩ :
        JsonError.JSON_ERROR_EMPTY_DOCUMENT = err ∧
          ([] : List JNode) = ch ∧ zeroPools = p := by simpa using h
    rfl
  · split at h
    · obtain ⟨rfl, rfl, rfl⟩ :
          JsonError.JSON_ERROR_EMPTY_DOCUMENT = err ∧
            ([] : List JNode) = ch ∧ zeroPools = p := by simpa using h
      rfl
    · split at h
      case _ st kids rest heq =>
        obtain ⟨rfl, rfl, rfl⟩ :
            st.err.errorID = err ∧ kids = ch ∧ st.pools = p := by
          simpa using h
        have rout := (parseInv (documentFuel s)).1 initState s
        rw [heq] at rout
        unfold RunOut at rout
        dsimp only at rout
        obtain ⟨hp, _⟩ := rout.2 (Or.inr ⟨rest, rfl⟩)
        rw [hp]
        show poolsAdd zeroPools (listCounts kids) = listCounts kids
        exact zero_poolsAdd (listCounts kids)
      case _ st kids heq =>
        obtain ⟨rfl, rfl, rfl⟩ :
            st.err.errorID = err ∧ kids = ch ∧ st.pools = p := by
          simpa using h
        have rout := (parseInv (documentFuel s)).1 initState s
        rw [heq] at rout
        unfold RunOut at rout
        dsimp only at rout
        obtain ⟨hp, _⟩ := rout.2 (Or.inl rfl)
        rw [hp]
        show poolsAdd zeroPools (listCounts kids) = listCounts kids
        exact zero_poolsAdd (listCounts kids)
      case _ => simp at h
      case _ => simp at h

theorem documentParse_elemWF {s : List Char} {err : JsonError}
    {ch : List JNode} {p : Pools}
    (h : documentParse s = DocRes.ret err ch p) : elemWFList ch = true := by
  unfold documentParse at h
  split at h
  · obtain ⟨rfl, rfl, rfl⟩ :
        JsonError.JSON_ERROR_EMPTY_DOCUMENT = err ∧
          ([] : List JNode) = ch ∧ zeroPools = p := by simpa using h
    rfl
  · split at h
    · obtain ⟨rfl, rfl, rfl⟩ :
          JsonError.JSON_ERROR_EMPTY_DOCUMENT = err ∧
            ([] : List JNode) = ch ∧ zeroPools = p := by simpa using h
      rfl
    · split at h
      case _ st kids rest heq =>
        obtain ⟨rfl, rfl, rfl⟩ :
            st.err.errorID = err ∧ kids = ch ∧ st.pools = p := by
          simpa using h
        have rout := (parseInv (documentFuel s)).1 initState s
        rw [heq] at rout
        unfold RunOut at rout
        dsimp only at rout
        exact (rout.2 (Or.inr ⟨rest, rfl⟩)).2
      case _ st kids heq =>
        obtain ⟨rfl, rfl, rfl⟩ :
            st.err.errorID = err ∧ kids = ch ∧ st.pools = p := by
          simpa using h
        have rout := (parseInv (documentFuel s)).1 initState s
        rw [heq] at rout
        unfold RunOut at rout
        dsimp only at rout
        exact (rout.2 (Or.inl rfl)).2
      case _ => simp at h
      case _ => simp at h

theorem documentParse_emptyDocument {s : List Char}
    {ch : List JNode} {p : Pools}
    (h : documentParse s = DocRes.ret JsonError.JSON_ERROR_EMPTY_DOCUMENT ch p) :
    ch = [] ∧ p = zeroPools := by
  unfold documentParse at h
  split at h
  · obtain ⟨rfl, rfl⟩ : ([] : List JNode) = ch ∧ zeroPools = p := by
      simpa using h
    exact ⟨rfl, rfl⟩
  · split at h
    · obtain ⟨rfl, rfl⟩ : ([] : List JNode) = ch ∧ zeroPools = p := by
        simpa using h
      exact ⟨rfl, rfl⟩
    · split at h
      case _ st kids rest heq =>
        exfalso
        have rout := (parseInv (documentFuel s)).1 initState s
        rw [heq] at rout
        unfold RunOut at rout
        dsimp only at rout
        have hne : noEmptyErr st := rout.1 (by unfold noEmptyErr initState; decide)
        obtain ⟨herr, -, -⟩ :
            st.err.errorID = JsonError.JSON_ERROR_EMPTY_DOCUMENT ∧
              kids = ch ∧ st.pools = p := by simpa using h
        exact hne herr
      case _ st kids heq =>
        exfalso
        have rout := (parseInv (documentFuel s)).1 initState s
        rw [heq] at rout
        unfold RunOut at rout
        dsimp only at rout
        have hne : noEmptyErr st := rout.1 (by unfold noEmptyErr initState; decide)
        obtain ⟨herr, -, -⟩ :
            st.err.errorID = JsonError.JSON_ERROR_EMPTY_DOCUMENT ∧
              kids = ch ∧ st.pools = p := by simpa using h
        exact hne herr
      case _ => simp at h
      case _ => simp at h

theorem skipWhiteSpace_eq_spec (l : List Char) :
    skipWhiteSpace l = skipWhiteSpaceSpec l := by
  induction l with
  | nil => rfl
  | cons c rest ih =>
    unfold skipWhiteSpace skipWhiteSpaceSpec
    unfold skipWhiteSpaceSpec at ih
    simp only [List.dropWhile]
    rw [Bool.and_comm (isSpaceByte c) (!isUTF8Continuation c)]
    by_cases hc : (!isUTF8Continuation c && isSpaceByte c) = true
    · simp [hc, ih]
    · simp [hc]

example :
    documentParse "\x7b\x7d".data =
      DocRes.ret JsonError.JSON_NO_ERROR [JNode.object []] ⟨1, 0, 0, 0, 0, 0⟩ := by
  rfl

example :
    documentParse "[]".data =
      DocRes.ret JsonError.JSON_NO_ERROR [JNode.array []] ⟨0, 1, 0, 0, 0, 0⟩ := by
  rfl

example :
    documentParse "".data =
      DocRes.ret JsonError.JSON_ERROR_EMPTY_DOCUMENT [] zeroPools := by
  rfl

example :
    documentParse "\x7b\"k\":true\x7d".data =
      DocRes.ret JsonError.JSON_NO_ERROR
        [JNode.object [JNode.element
          [JNode.string "k".data, JNode.reserved RType.RESERVED_TRUE]]]
        ⟨1, 0, 1, 0, 1, 1⟩ := by
  rfl

example :
    documentParse "[1, 2, 3]".data =
      DocRes.ret JsonError.JSON_NO_ERROR
        [JNode.array [JNode.number "1".data, JNode.number "2".data,
          JNode.number "3".data]]
        ⟨0, 1, 0, 3, 0, 0⟩ := by
  rfl

example :
    documentParse "\"unterminated".data =
      DocRes.ret JsonError.JSON_ERROR_PARSING_STRING [] zeroPools := by
  rfl

example : documentParse "\x7b\"a\":1\x7d".data = documentParse "\x7b \"a\" : 1 \x7d".data := by
  rfl

example : documentParse "\x7bx\x7d".data = DocRes.ub := by rfl

example :
    printDocument [JNode.object [JNode.element
      [JNode.string "k".data, JNode.reserved RType.RESERVED_TRUE]]] =
      "\x7b\n    \"k\" : true\n\x7d".data := by
  rfl

/-- C1 (code bug): the round-trip property fails on a tree containing a
`Reserved(false)` node.  Parsing `false` succeeds and yields the
`RESERVED_FALSE` node, but `JsonPrinter::Visit(const JsonReserved &)`
renders that tag as the misspelled literal `flase` (src/tinyJson.cpp:602),
so parsing the printed text fails with `JSON_ERROR_PARSING_RESERVED` and an
empty tree instead of reproducing a tree with the same boolean tag.  The
spec's own design notes flag the misspelling as a defect of the printer. -/
theorem c1_print_false_roundtrip_bug :
    documentParse "false".data =
      DocRes.ret JsonError.JSON_NO_ERROR
        [JNode.reserved RType.RESERVED_FALSE] ⟨0, 0, 0, 0, 0, 1⟩ ∧
    printDocument [JNode.reserved RType.RESERVED_FALSE] = "flase".data ∧
    documentParse (printDocument [JNode.reserved RType.RESERVED_FALSE]) =
      DocRes.ret JsonError.JSON_ERROR_PARSING_RESERVED [] zeroPools :=
  ⟨rfl, rfl, rfl⟩

/-- C2 (counterexample): `Parse` on `true "x` returns the
unterminated-string status — not `JSON_NO_ERROR` — yet the Document keeps a
top-level child: the `Reserved(true)` value linked before the failure.  The
failing String node is torn down, but values completed earlier are not. -/
theorem c2_counterexample :
    documentParse "true \"x".data =
      DocRes.ret JsonError.JSON_ERROR_PARSING_STRING
        [JNode.reserved RType.RESERVED_TRUE] ⟨0, 0, 0, 0, 0, 1⟩ ∧
    JsonError.JSON_ERROR_PARSING_STRING ≠ JsonError.JSON_NO_ERROR ∧
    ([JNode.reserved RType.RESERVED_TRUE] : List JNode) ≠ [] :=
  ⟨rfl, by decide, by simp⟩

/-- C2 (amended): a failed `Parse` tears down only the value whose parse
failed; top-level values completed and linked before the failure remain in
the tree, so the tree is left empty only when the failure precedes the
first completed value.  In particular every `Parse` that fails with
`JSON_ERROR_EMPTY_DOCUMENT` — the only status produced before the value
loop runs — leaves the Document with no children and no live allocation. -/
theorem c2_empty_document_leaves_tree_empty :
    ∀ (s : List Char) (ch : List JNode) (p : Pools),
      documentParse s =
          DocRes.ret JsonError.JSON_ERROR_EMPTY_DOCUMENT ch p →
        ch = [] ∧ p = zeroPools :=
  fun _ _ _ h => documentParse_emptyDocument h

theorem c2_empty_document_leaves_tree_empty_witness :
    ([] : List JNode) = [] ∧ zeroPools = zeroPools :=
  c2_empty_document_leaves_tree_empty " ".data [] zeroPools rfl

/-- C3 (counterexample): the malformed input `1 [` makes `Parse` fail with
the array-mismatch status, yet the Number pool's live-allocation count is 1
after the call: the Number node parsed before the failure stays linked in
the tree and therefore allocated. -/
theorem c3_counterexample :
    documentParse "1 [".data =
      DocRes.ret JsonError.JSON_ERROR_ARRAY_MISMATCH
        [JNode.number "1".data] ⟨0, 0, 0, 1, 0, 0⟩ ∧
    (⟨0, 0, 0, 1, 0, 0⟩ : Pools).numberAllocs ≠ 0 :=
  ⟨rfl, by decide⟩

/-- C3 (amended): after any `Parse` that returns — success or failure —
each pool's live-allocation count equals the number of nodes of that
variant linked in the Document's tree: every node of the failing subtree is
freed and nothing is leaked unlinked, but values completed before the
failure remain both linked and allocated, so the counts are all zero
exactly when the tree is left empty. -/
theorem c3_live_allocs_equal_tree :
    ∀ (s : List Char) (err : JsonError) (ch : List JNode) (p : Pools),
      documentParse s = DocRes.ret err ch p → p = listCounts ch :=
  fun _ _ _ _ h => documentParse_pools h

theorem c3_live_allocs_equal_tree_witness :
    (⟨0, 0, 0, 0, 0, 1⟩ : Pools) =
      listCounts [JNode.reserved RType.RESERVED_TRUE] :=
  c3_live_allocs_equal_tree "true [".data JsonError.JSON_ERROR_ARRAY_MISMATCH
    [JNode.reserved RType.RESERVED_TRUE] ⟨0, 0, 0, 0, 0, 1⟩ rfl

/-- C4 (code bug): `Parse` on `{"a":}` returns `JSON_NO_ERROR` and a tree
Object → Element → [String key only], not the element-mismatch status with
an empty tree.  The Element's value phase runs the shared
`JsonNode::ParseDeep` loop, which returns a non-null cursor when it
identifies no value at all, so the missing value after `:` goes
undetected. -/
theorem c4_missing_value_accepted :
    documentParse "\x7b\"a\":\x7d".data =
      DocRes.ret JsonError.JSON_NO_ERROR
        [JNode.object [JNode.element [JNode.string "a".data]]]
        ⟨1, 0, 1, 0, 1, 0⟩ :=
  rfl

/-- C5 (counterexample): after the successful `Parse` of `{"a" "b":1}` the
Element node has three children — two String nodes absorbed by the key
phase's repeat-until-none run loop and the Number value — refuting both the
exactly-two-children shape and the claim that Element does not use the
run loop. -/
theorem c5_counterexample :
    documentParse "\x7b\"a\" \"b\":1\x7d".data =
      DocRes.ret JsonError.JSON_NO_ERROR
        [JNode.object [JNode.element
          [JNode.string "a".data, JNode.string "b".data,
           JNode.number "1".data]]]
        ⟨1, 0, 1, 1, 2, 0⟩ ∧
    ([JNode.string "a".data, JNode.string "b".data,
        JNode.number "1".data] : List JNode).length ≠ 2 :=
  ⟨rfl, by decide⟩

/-- C5 (amended): `JsonElement::ParseDeep` runs the shared
repeat-until-none loop for both its key phase and its value phase, so an
Element in a successfully parsed tree need not have exactly two children
(one child when the value is missing, three or more when a phase absorbs
several values).  What every Element in the tree of a successful `Parse`
does satisfy: it has at least one child and its first child is a String —
the key whose leading `"` the Element checks before parsing. -/
theorem c5_element_first_child_string :
    ∀ (s : List Char) (err : JsonError) (ch : List JNode) (p : Pools),
      documentParse s = DocRes.ret err ch p →
      err = JsonError.JSON_NO_ERROR → elemWFList ch = true :=
  fun _ _ _ _ h _ => documentParse_elemWF h

theorem c5_element_first_child_string_witness :
    elemWFList [JNode.object [JNode.element
      [JNode.string "k".data, JNode.reserved RType.RESERVED_TRUE]]] = true :=
  c5_element_first_child_string "\x7b\"k\":true\x7d".data JsonError.JSON_NO_ERROR
    [JNode.object [JNode.element
      [JNode.string "k".data, JNode.reserved RType.RESERVED_TRUE]]]
    ⟨1, 0, 1, 0, 1, 1⟩ rfl rfl

/-- C6 (counterexample): `Parse` on `[1 2]` succeeds with `JSON_NO_ERROR`
and produces an Array whose children are both Numbers — it does not fail.
The array body's first step is the shared run-of-values loop, which
consumes every whitespace-separated value it can identify before the comma
loop is ever consulted. -/
theorem c6_counterexample :
    documentParse "[1 2]".data =
      DocRes.ret JsonError.JSON_NO_ERROR
        [JNode.array [JNode.number "1".data, JNode.number "2".data]]
        ⟨0, 1, 0, 2, 0, 0⟩ :=
  rfl

/-- C6 (amended): a comma between consecutive array values is permitted but
not required: `[1 2]` and `[1,2]` parse to identical results — the same
status, the same Array with both Number children, and the same pool
counts. -/
theorem c6_comma_optional :
    documentParse "[1 2]".data = documentParse "[1,2]".data ∧
    documentParse "[1,2]".data =
      DocRes.ret JsonError.JSON_NO_ERROR
        [JNode.array [JNode.number "1".data, JNode.number "2".data]]
        ⟨0, 1, 0, 2, 0, 0⟩ :=
  ⟨rfl, rfl⟩

/-- C7: `JsonDocument::SetError` implements first-error-wins, which makes
the first recorded error the status `Parse` returns (the embedding's
`documentParse` returns the final error slot): once the slot holds a value
other than `JSON_NO_ERROR`, a subsequent call leaves the error code and
both context strings unchanged; while the slot is clear, a call records
exactly the given code and context strings. -/
theorem c7_first_error_wins :
    (∀ (st : ErrState) (e : JsonError) (s1 s2 : Option (List Char)),
        st.errorID ≠ JsonError.JSON_NO_ERROR → setError st e s1 s2 = st) ∧
    (∀ (st : ErrState) (e : JsonError) (s1 s2 : Option (List Char)),
        st.errorID = JsonError.JSON_NO_ERROR →
          setError st e s1 s2 = ⟨e, s1, s2⟩) := by
  constructor <;> intro st e s1 s2 h <;> simp [setError, h]

theorem c7_first_error_wins_witness :
    setError ⟨JsonError.JSON_ERROR_PARSING_STRING, none, none⟩
        JsonError.JSON_ERROR_PARSING none none =
      ⟨JsonError.JSON_ERROR_PARSING_STRING, none, none⟩ ∧
    setError ⟨JsonError.JSON_NO_ERROR, none, none⟩
        JsonError.JSON_ERROR_PARSING_STRING none none =
      ⟨JsonError.JSON_ERROR_PARSING_STRING, none, none⟩ :=
  ⟨c7_first_error_wins.1 ⟨JsonError.JSON_ERROR_PARSING_STRING, none, none⟩
      JsonError.JSON_ERROR_PARSING none none (by decide),
   c7_first_error_wins.2 ⟨JsonError.JSON_NO_ERROR, none, none⟩
      JsonError.JSON_ERROR_PARSING_STRING none none rfl⟩

/-- C8: `Identify` behaves exactly as the specification's dispatch table
states — skip ASCII whitespace treating any high-bit byte as
non-whitespace, then `n`/`t`/`f` → Reserved, `"` → String with the cursor
past the quote, `{` → Object past it, `[` → Array past it, `-` or a digit →
Number, and end of input or any other byte → no node — and it never touches
the error slot. -/
theorem c8_identify_dispatch :
    ∀ (st : DocState) (json : List Char),
      ((identify st json).2.1, (identify st json).2.2) = identifySpec json ∧
      (identify st json).1.err = st.err := by
  intro st json
  refine ⟨?_, identify_err st json⟩
  unfold identify identifySpec
  rw [← skipWhiteSpace_eq_spec]
  rcases hs : skipWhiteSpace json with _ | ⟨c, rest⟩
  · rfl
  · dsimp only
    split_ifs <;> rfl

/-- C9: when the numeric scan consumes zero characters (for example on the
bare input `-`), `JsonNumber::ParseDeep` fails recording
`JSON_ERROR_OBJECT_MISMATCH` — the object-mismatch code, not a
number-specific one — and `Parse` of `-` therefore returns
`JSON_ERROR_OBJECT_MISMATCH` with an empty tree. -/
theorem c9_number_zero_consumed :
    (∀ (st : DocState) (json : List Char),
        strtodLen (skipWhiteSpace json) = 0 →
        jsonNumberParseDeep st json =
          (setErrD st JsonError.JSON_ERROR_OBJECT_MISMATCH,
           PRes.fail (JNode.number []))) ∧
    documentParse "-".data =
      DocRes.ret JsonError.JSON_ERROR_OBJECT_MISMATCH [] zeroPools := by
  constructor
  · intro st json h
    simp [jsonNumberParseDeep, h]
  · rfl

theorem c9_number_zero_consumed_witness :
    jsonNumberParseDeep initState "-".data =
      (setErrD initState JsonError.JSON_ERROR_OBJECT_MISMATCH,
       PRes.fail (JNode.number [])) :=
  c9_number_zero_consumed.1 initState "-".data (by decide)

/-- C10 (code bug): the scan of `JsonString::ParseDeep` does not stay at or
before the terminating NUL.  For the buffer left after the opening quote of
the input `"\` — the byte `\` at address 0 and the NUL at address 1 — the
scan skips two bytes at the backslash, lands beyond the NUL, and its
outcome depends on the out-of-bounds byte at address 2: two memories that
agree up to and including the NUL produce different results (it can even
"succeed", writing a NUL terminator outside the buffer).  Accordingly the
whole-parser embedding marks `Parse` of `"\` as undefined behaviour. -/
theorem c10_string_scan_overrun :
    memBeyondQuote 0 = memBeyondOther 0 ∧
    memBeyondQuote 1 = '\x00' ∧
    memBeyondOther 1 = '\x00' ∧
    strScanMem memBeyondQuote 8 0 = MemScan.exitQuote 2 ∧
    strScanMem memBeyondOther 8 0 = MemScan.exitNul 3 ∧
    documentParse "\"\\".data = DocRes.ub :=
  ⟨rfl, rfl, rfl, rfl, rfl, rfl⟩
